import Mathlib

/-
Verification of the proxy validation engine of `simple_proxy_collector.py`.

The development shallowly embeds the validation engine: the per-endpoint
probes `test_proxy` / `test_proxy_async`, the async scheduling loop of
`validate_proxies_async` (initial fill, completion harvesting, stall
recovery), the thread-pool validator of `validate_proxies`, the mode
selector, and the persistence helper `load_existing_proxies`.

Network behaviour is abstracted by oracles: each candidate index is mapped
to the outcome its probe would produce (`HttpOutcome`), and a scheduling
oracle decides which in-flight tasks complete in each iteration of the
waiting loop (an empty completion set models a stall of the
`asyncio.wait(..., timeout=CONFIG["timeout"] * 2)` call).  Latencies are
modelled as exact rationals.
-/

namespace SimpleProxyCollector

/-- Configuration values of the `CONFIG` dictionary that the validation
engine reads (lines 28-38 of the source). -/
structure Config where
  validator_workers : Nat
  async_validator_concurrency : Nat
  timeout : ℚ
  max_response_time : ℚ
deriving DecidableEq

/-- The concrete `CONFIG` values from the source. -/
def CONFIG : Config :=
  { validator_workers := 10
    async_validator_concurrency := 50
    timeout := 5
    max_response_time := 5 }

/-- Result of attempting to parse the response body as JSON: not JSON at
all, a JSON object containing the key `"origin"`, or JSON without that
key. -/
inductive JsonBody
  | notJson
  | withOrigin
  | noOrigin
deriving DecidableEq

/-- Abstract outcome of one network request through a proxy: either the
request raised (connection error, timeout, protocol failure — all the
`except` branches), or a response arrived with a status code, a body, and
a measured elapsed time `response_time = end_time - start_time`. -/
inductive HttpOutcome
  | exn
  | resp (status : Nat) (body : JsonBody) (response_time : ℚ)
deriving DecidableEq

/-- The response-handling block shared by `test_proxy` (lines 1469-1480)
and both branches of `test_proxy_async` (lines 1512-1522 and 1541-1551):
on status 200 try to parse JSON; if `"origin"` is present return success;
if parsing raises return success anyway; a 200 body that parses but lacks
`"origin"` falls through to `return False, response_time`, as does any
non-200 status. -/
def handle_response (status : Nat) (body : JsonBody) (response_time : ℚ) :
    Bool × Option ℚ :=
  if status = 200 then
    match body with
    | .withOrigin => (true, some response_time)
    | .notJson => (true, some response_time)
    | .noOrigin => (false, some response_time)
  else
    (false, some response_time)

/-- `test_proxy` (lines 1451-1483): any exception yields `(False, None)`;
otherwise the common response handling applies. -/
def test_proxy : HttpOutcome → Bool × Option ℚ
  | .exn => (false, none)
  | .resp status body response_time => handle_response status body response_time

/-- `proxy.startswith(s)` on the scheme, modelled on the character list. -/
def starts_with (proxy s : String) : Bool :=
  s.data.isPrefixOf proxy.data

/-- `test_proxy_async` (lines 1485-1558).  When `aiohttp`/`aiohttp_socks`
cannot be imported the coroutine raises `ImportError` (modelled as
`Except.error ()`, line 1493).  Otherwise SOCKS-scheme proxies use the
`ProxyConnector` branch and all other proxies the plain-session branch;
both branches apply the identical response handling, and both map
`asyncio.TimeoutError` and any other exception to `(False, None)`. -/
def test_proxy_async (deps_available : Bool) (proxy : String) :
    HttpOutcome → Except Unit (Bool × Option ℚ)
  | o =>
    if deps_available = false then
      Except.error ()
    else if starts_with proxy "socks5://" || starts_with proxy "socks4://" then
      match o with
      | .exn => Except.ok (false, none)
      | .resp status body response_time => Except.ok (handle_response status body response_time)
    else
      match o with
      | .exn => Except.ok (false, none)
      | .resp status body response_time => Except.ok (handle_response status body response_time)

/-- The acceptance test applied to a harvested probe result, from
`if is_valid and response_time and response_time <= CONFIG["max_response_time"]`
(lines 1625 and 1699).  Python truthiness of `response_time` requires it
to be non-`None` AND nonzero. -/
def accept_proxy (max_response_time : ℚ) : Bool × Option ℚ → Bool
  | (is_valid, some response_time) =>
      is_valid && decide (response_time ≠ 0) && decide (response_time ≤ max_response_time)
  | (_, none) => false

/-- Progress-report interval as a function of the total candidate count
(lines 1637-1642 and 1703-1708). -/
def update_interval (total : Nat) : Nat :=
  if total > 10000 then 500
  else if total > 1000 then 100
  else 50

/-- The emission condition
`completed_count % update_interval == 0 or completed_count == total`
(lines 1644 and 1710). -/
def should_report (total completed_count : Nat) : Bool :=
  completed_count % update_interval total == 0 || completed_count == total

/-- State of one run of `validate_proxies_async` (lines 1564-1576).
In-flight tasks are identified by the index of their candidate, standing
for the `pending_tasks` task-to-proxy dictionary.  `returned_results`
records, for audit, every `(proxy, task.result())` pair harvested from a
normally-completed task; `progress_log` records every emitted progress
line as `(completed_count, len(valid_proxies))`.  `iteration` counts
executions of the waiting loop and feeds the scheduling oracle. -/
structure AsyncState where
  pending_tasks : List Nat
  completed_count : Nat
  next_proxy_index : Nat
  valid_proxies : List String
  returned_results : List (String × (Bool × Option ℚ))
  progress_log : List (Nat × Nat)
  iteration : Nat
deriving DecidableEq

/-- The empty initial state (`valid_proxies = []`, counters zero). -/
def init_state : AsyncState :=
  { pending_tasks := []
    completed_count := 0
    next_proxy_index := 0
    valid_proxies := []
    returned_results := []
    progress_log := []
    iteration := 0 }

/-- The admission loop
`while next_proxy_index < total and len(pending_tasks) < CONFIG["async_validator_concurrency"]`
(lines 1579-1583, 1609-1613 and 1649-1653), which appends candidate
indices from the cursor and advances it; the loop body runs
`min (total - next_proxy_index) (conc - len pending_tasks)` times. -/
def fill_tasks (conc total : Nat) (s : AsyncState) : AsyncState :=
  let k := min (total - s.next_proxy_index) (conc - s.pending_tasks.length)
  { s with
    pending_tasks := s.pending_tasks ++ (List.range k).map (fun j => s.next_proxy_index + j)
    next_proxy_index := s.next_proxy_index + k }

/-- Processing of one completed task from the `for task in done` loop
(lines 1617-1646): pop the proxy, read `task.result()` (an exception is
swallowed by `except Exception: pass`), append to `valid_proxies` when the
acceptance test passes, increment `completed_count`, and emit a progress
line when the reporting condition holds. -/
def handle_completed (max_response_time : ℚ) (proxies : List String)
    (task_result : Nat → Except Unit (Bool × Option ℚ))
    (s : AsyncState) (i : Nat) : AsyncState :=
  let proxy := proxies.getD i ""
  let valid' :=
    match task_result i with
    | .ok r => if accept_proxy max_response_time r then s.valid_proxies ++ [proxy]
               else s.valid_proxies
    | .error _ => s.valid_proxies
  let returned' :=
    match task_result i with
    | .ok r => s.returned_results ++ [(proxy, r)]
    | .error _ => s.returned_results
  let completed' := s.completed_count + 1
  let log' :=
    if should_report proxies.length completed' then
      s.progress_log ++ [(completed', valid'.length)]
    else s.progress_log
  { s with
    valid_proxies := valid'
    returned_results := returned'
    completed_count := completed'
    progress_log := log' }

/-- One iteration of the `while pending_tasks` loop (lines 1586-1653),
meaningful when `pending_tasks` is nonempty.  The scheduling oracle names
the in-flight tasks that complete within the `asyncio.wait` window.  If
none does (`if not done`, line 1595) the loop cancels every pending task,
awaits the cancellations, adds their number to `completed_count`, clears
`pending_tasks` and refills from the cursor.  Otherwise it removes the
completed tasks from `pending_tasks`, processes each, and tops the window
back up. -/
def scheduler_step (conc : Nat) (max_response_time : ℚ) (proxies : List String)
    (oracle : Nat → Nat → Bool)
    (task_result : Nat → Except Unit (Bool × Option ℚ))
    (s : AsyncState) : AsyncState :=
  let total := proxies.length
  let done := s.pending_tasks.filter (oracle s.iteration)
  if done.isEmpty then
    fill_tasks conc total
      { s with
        completed_count := s.completed_count + s.pending_tasks.length
        pending_tasks := []
        iteration := s.iteration + 1 }
  else
    let s' := { s with
                pending_tasks := s.pending_tasks.filter (fun i => !(oracle s.iteration i))
                iteration := s.iteration + 1 }
    fill_tasks conc total
      (done.foldl (handle_completed max_response_time proxies task_result) s')

/-- The `while pending_tasks:` loop itself, fuelled; the fuel is spent one
unit per iteration and `proxies.length` units always suffice (lemma
`scheduler_loop_drains`). -/
def scheduler_loop (conc : Nat) (max_response_time : ℚ) (proxies : List String)
    (oracle : Nat → Nat → Bool)
    (task_result : Nat → Except Unit (Bool × Option ℚ)) :
    Nat → AsyncState → AsyncState
  | 0, s => s
  | fuel + 1, s =>
    if s.pending_tasks.isEmpty then s
    else scheduler_loop conc max_response_time proxies oracle task_result fuel
      (scheduler_step conc max_response_time proxies oracle task_result s)

/-- `validate_proxies_async` (lines 1560-1665): return immediately on an
empty candidate list, otherwise run the initial fill followed by the
waiting loop.  Each task's eventual `task.result()` is
`test_proxy_async deps_available proxies[i] (net i)`. -/
def validate_proxies_async (cfg : Config) (deps_available : Bool)
    (proxies : List String) (oracle : Nat → Nat → Bool)
    (net : Nat → HttpOutcome) : AsyncState :=
  let total := proxies.length
  if total = 0 then init_state
  else
    scheduler_loop cfg.async_validator_concurrency cfg.max_response_time proxies oracle
      (fun i => test_proxy_async deps_available (proxies.getD i "") (net i))
      total
      (fill_tasks cfg.async_validator_concurrency total init_state)

/-- Accumulator state of the synchronous thread-pool validator
(lines 1686-1712): the growing `valid_proxies` list, the `completed`
counter, the harvested `(proxy, future.result())` pairs, and the emitted
progress lines. -/
structure SyncState where
  valid_proxies : List String
  completed : Nat
  returned_results : List (String × (Bool × Option ℚ))
  progress_log : List (Nat × Nat)
deriving DecidableEq

/-- Body of the `for future in as_completed(futures)` loop
(lines 1693-1712): increment `completed`, read the probe result, append
to `valid_proxies` on acceptance, and emit the progress line when the
reporting condition holds. -/
def sync_handle (max_response_time : ℚ) (proxies : List String)
    (net : Nat → HttpOutcome) (s : SyncState) (i : Nat) : SyncState :=
  let completed' := s.completed + 1
  let proxy := proxies.getD i ""
  let r := test_proxy (net i)
  let valid' := if accept_proxy max_response_time r then s.valid_proxies ++ [proxy]
                else s.valid_proxies
  let log' :=
    if should_report proxies.length completed' then
      s.progress_log ++ [(completed', valid'.length)]
    else s.progress_log
  { valid_proxies := valid'
    completed := completed'
    returned_results := s.returned_results ++ [(proxy, r)]
    progress_log := log' }

/-- The synchronous validator branch of `validate_proxies`
(lines 1682-1718): one future is submitted per candidate occurrence and
`as_completed` yields them in an arbitrary order, modelled by `order`, a
permutation of the candidate indices. -/
def validate_proxies_sync (cfg : Config) (proxies : List String)
    (net : Nat → HttpOutcome) (order : List Nat) : SyncState :=
  order.foldl (sync_handle cfg.max_response_time proxies net)
    { valid_proxies := [], completed := 0, returned_results := [], progress_log := [] }

/-- The two validation strategies selectable through
`CONFIG["validation_method"]`. -/
inductive ValidationMethod
  | async
  | sync
deriving DecidableEq

/-- `asyncio.run(validate_proxies_async(proxies))` as observed by the
caller (line 1672).  An exception propagates out of
`validate_proxies_async` only if the `asyncio` machinery itself fails:
the `ImportError` raised inside `test_proxy_async` when
`aiohttp`/`aiohttp_socks` are missing makes each task finish with that
exception, and `task.result()` re-raises it inside the
`try: ... except Exception: pass` of the completion loop (lines
1623-1632), where it is swallowed.  Within the modelled behaviours the
call therefore always returns normally. -/
def run_validate_proxies_async (cfg : Config) (deps_available : Bool)
    (proxies : List String) (oracle : Nat → Nat → Bool)
    (net : Nat → HttpOutcome) : Except Unit AsyncState :=
  Except.ok (validate_proxies_async cfg deps_available proxies oracle net)

/-- `validate_proxies` (lines 1667-1718): in async mode run the async
validator, falling back to the sync validator if the call raises
`ImportError` (or any other exception would have re-raised, line 1662;
within the modelled behaviours the error branch is unreachable); in sync
mode run the thread-pool validator. -/
def validate_proxies (cfg : Config) (validation_method : ValidationMethod)
    (deps_available : Bool) (proxies : List String)
    (oracle : Nat → Nat → Bool) (net : Nat → HttpOutcome)
    (sync_net : Nat → HttpOutcome) (order : List Nat) : List String :=
  match validation_method with
  | .async =>
    match run_validate_proxies_async cfg deps_available proxies oracle net with
    | .ok st => st.valid_proxies
    | .error _ => (validate_proxies_sync cfg proxies sync_net order).valid_proxies
  | .sync => (validate_proxies_sync cfg proxies sync_net order).valid_proxies

/-- State of the `ThreadPoolExecutor(max_workers=CONFIG["validator_workers"])`
used by the sync validator (line 1689): the index of the next submitted
future not yet picked up by a worker, and the futures currently
executing. -/
structure PoolState where
  next_index : Nat
  inflight : List Nat
deriving DecidableEq

/-- Execution steps of the thread-pool: this embeds the documented
semantics of `concurrent.futures.ThreadPoolExecutor`, under which each of
the `max_workers` worker threads runs one submitted future at a time, so
a queued future starts only while fewer than `max_workers` futures are
executing, and a running future eventually completes and frees its
worker. -/
inductive pool_step (workers total : Nat) : PoolState → PoolState → Prop
  | pickup (t : PoolState) (h : t.inflight.length < workers) (h2 : t.next_index < total) :
      pool_step workers total t
        { next_index := t.next_index + 1, inflight := t.inflight ++ [t.next_index] }
  | complete (t : PoolState) (i : Nat) (h : i ∈ t.inflight) :
      pool_step workers total t
        { next_index := t.next_index, inflight := t.inflight.erase i }

/-- Pool states reachable from the empty pool. -/
def pool_reach (workers total : Nat) : PoolState → PoolState → Prop :=
  Relation.ReflTransGen (pool_step workers total)

/-- Async scheduler states reachable from a given state by iterations of
the waiting loop (each step requires the `while pending_tasks` guard). -/
def async_reach (conc : Nat) (max_response_time : ℚ) (proxies : List String)
    (oracle : Nat → Nat → Bool)
    (task_result : Nat → Except Unit (Bool × Option ℚ)) :
    AsyncState → AsyncState → Prop :=
  Relation.ReflTransGen (fun a b =>
    a.pending_tasks ≠ [] ∧
    b = scheduler_step conc max_response_time proxies oracle task_result a)

/-- The wait window passed to `asyncio.wait`:
`timeout=CONFIG["timeout"] * 2` (line 1591). -/
def stall_timeout (timeout : ℚ) : ℚ := timeout * 2

/-- On-disk states the data file can be in, as far as
`load_existing_proxies` can distinguish them: absent; present but
unreadable or not valid JSON (open/read/`json.load` raises); valid JSON
that is not an object (so `data.get` raises `AttributeError`); or a JSON
object whose `"proxies"` key holds the given list when present. -/
inductive DataFile
  | missing
  | unreadable
  | notObject
  | object (proxiesVal : Option (List String))
deriving DecidableEq

/-- `os.path.exists(data_file)` (line 47). -/
def file_exists : DataFile → Bool
  | .missing => false
  | _ => true

/-- The body of the `try` block (lines 49-51): `json.load` followed by
`data.get("proxies", [])`; `Except.error` stands for any raised
exception. -/
def read_proxies_key : DataFile → Except Unit (List String)
  | .missing => Except.error ()
  | .unreadable => Except.error ()
  | .notObject => Except.error ()
  | .object none => Except.ok []
  | .object (some ps) => Except.ok ps

/-- `load_existing_proxies` (lines 44-54): if the file exists, try to
read and parse it, returning the `"proxies"` list; any exception is
swallowed by the bare `except: pass` and the function falls through to
`return []`. -/
def load_existing_proxies (f : DataFile) : List String :=
  if file_exists f then
    match read_proxies_key f with
    | .ok ps => ps
    | .error _ => []
  else []

/-! ### Basic lemmas about the scheduler components -/

/-- Termination measure of the waiting loop: un-admitted candidates plus
in-flight tasks. -/
def run_measure (total : Nat) (s : AsyncState) : Nat :=
  (total - s.next_proxy_index) + s.pending_tasks.length

lemma fill_tasks_completed (conc total : Nat) (s : AsyncState) :
    (fill_tasks conc total s).completed_count = s.completed_count := rfl

lemma fill_tasks_valid (conc total : Nat) (s : AsyncState) :
    (fill_tasks conc total s).valid_proxies = s.valid_proxies := rfl

lemma fill_tasks_returned (conc total : Nat) (s : AsyncState) :
    (fill_tasks conc total s).returned_results = s.returned_results := rfl

lemma fill_tasks_log (conc total : Nat) (s : AsyncState) :
    (fill_tasks conc total s).progress_log = s.progress_log := rfl

lemma fill_tasks_pending_length (conc total : Nat) (s : AsyncState) :
    (fill_tasks conc total s).pending_tasks.length
      = s.pending_tasks.length
        + min (total - s.next_proxy_index) (conc - s.pending_tasks.length) := by
  simp [fill_tasks]

lemma fill_tasks_next (conc total : Nat) (s : AsyncState) :
    (fill_tasks conc total s).next_proxy_index
      = s.next_proxy_index
        + min (total - s.next_proxy_index) (conc - s.pending_tasks.length) := rfl

lemma fill_tasks_length_le (conc total : Nat) (s : AsyncState)
    (h : s.pending_tasks.length ≤ conc) :
    (fill_tasks conc total s).pending_tasks.length ≤ conc := by
  rw [fill_tasks_pending_length]
  have h2 := Nat.min_le_right (total - s.next_proxy_index) (conc - s.pending_tasks.length)
  omega

lemma fill_tasks_next_le (conc total : Nat) (s : AsyncState)
    (h : s.next_proxy_index ≤ total) :
    (fill_tasks conc total s).next_proxy_index ≤ total := by
  rw [fill_tasks_next]
  have h2 := Nat.min_le_left (total - s.next_proxy_index) (conc - s.pending_tasks.length)
  omega

lemma fill_tasks_next_ge (conc total : Nat) (s : AsyncState) :
    s.next_proxy_index ≤ (fill_tasks conc total s).next_proxy_index := by
  rw [fill_tasks_next]; omega

lemma fill_tasks_measure (conc total : Nat) (s : AsyncState) :
    run_measure total (fill_tasks conc total s) = run_measure total s := by
  have h := Nat.min_le_left (total - s.next_proxy_index) (conc - s.pending_tasks.length)
  simp only [run_measure, fill_tasks_pending_length, fill_tasks_next]
  omega

lemma fill_tasks_pending_mem (conc total : Nat) (s : AsyncState) (i : Nat)
    (h : i ∈ (fill_tasks conc total s).pending_tasks) :
    i ∈ s.pending_tasks ∨
      (s.next_proxy_index ≤ i ∧ i < (fill_tasks conc total s).next_proxy_index) := by
  rw [fill_tasks_next]
  simp only [fill_tasks, List.mem_append, List.mem_map, List.mem_range] at h
  rcases h with h | ⟨j, hj, rfl⟩
  · exact Or.inl h
  · exact Or.inr ⟨Nat.le_add_right _ _, by omega⟩

lemma handle_completed_pending (m : ℚ) (p : List String)
    (r : Nat → Except Unit (Bool × Option ℚ)) (s : AsyncState) (i : Nat) :
    (handle_completed m p r s i).pending_tasks = s.pending_tasks := rfl

lemma handle_completed_next (m : ℚ) (p : List String)
    (r : Nat → Except Unit (Bool × Option ℚ)) (s : AsyncState) (i : Nat) :
    (handle_completed m p r s i).next_proxy_index = s.next_proxy_index := rfl

lemma handle_completed_iteration (m : ℚ) (p : List String)
    (r : Nat → Except Unit (Bool × Option ℚ)) (s : AsyncState) (i : Nat) :
    (handle_completed m p r s i).iteration = s.iteration := rfl

lemma handle_completed_completed (m : ℚ) (p : List String)
    (r : Nat → Except Unit (Bool × Option ℚ)) (s : AsyncState) (i : Nat) :
    (handle_completed m p r s i).completed_count = s.completed_count + 1 := rfl

lemma handle_completed_valid_eq (m : ℚ) (p : List String)
    (r : Nat → Except Unit (Bool × Option ℚ)) (s : AsyncState) (i : Nat) :
    (handle_completed m p r s i).valid_proxies =
      match r i with
      | Except.ok v =>
        if accept_proxy m v then s.valid_proxies ++ [p.getD i ""] else s.valid_proxies
      | Except.error _ => s.valid_proxies := rfl

lemma handle_completed_returned_eq (m : ℚ) (p : List String)
    (r : Nat → Except Unit (Bool × Option ℚ)) (s : AsyncState) (i : Nat) :
    (handle_completed m p r s i).returned_results =
      match r i with
      | Except.ok v => s.returned_results ++ [(p.getD i "", v)]
      | Except.error _ => s.returned_results := rfl

lemma handle_completed_valid_ok (m : ℚ) (p : List String)
    (r : Nat → Except Unit (Bool × Option ℚ)) (s : AsyncState) (i : Nat)
    (v : Bool × Option ℚ) (h : r i = Except.ok v) :
    (handle_completed m p r s i).valid_proxies =
      if accept_proxy m v then s.valid_proxies ++ [p.getD i ""] else s.valid_proxies := by
  rw [handle_completed_valid_eq, h]

lemma handle_completed_valid_err (m : ℚ) (p : List String)
    (r : Nat → Except Unit (Bool × Option ℚ)) (s : AsyncState) (i : Nat)
    (e : Unit) (h : r i = Except.error e) :
    (handle_completed m p r s i).valid_proxies = s.valid_proxies := by
  rw [handle_completed_valid_eq, h]

lemma handle_completed_returned_ok (m : ℚ) (p : List String)
    (r : Nat → Except Unit (Bool × Option ℚ)) (s : AsyncState) (i : Nat)
    (v : Bool × Option ℚ) (h : r i = Except.ok v) :
    (handle_completed m p r s i).returned_results =
      s.returned_results ++ [(p.getD i "", v)] := by
  rw [handle_completed_returned_eq, h]

lemma handle_completed_returned_err (m : ℚ) (p : List String)
    (r : Nat → Except Unit (Bool × Option ℚ)) (s : AsyncState) (i : Nat)
    (e : Unit) (h : r i = Except.error e) :
    (handle_completed m p r s i).returned_results = s.returned_results := by
  rw [handle_completed_returned_eq, h]

lemma handle_completed_valid_le (m : ℚ) (p : List String)
    (r : Nat → Except Unit (Bool × Option ℚ)) (s : AsyncState) (i : Nat) :
    (handle_completed m p r s i).valid_proxies.length ≤ s.valid_proxies.length + 1 := by
  cases h : r i with
  | ok v =>
    rw [handle_completed_valid_ok m p r s i v h]
    by_cases ha : accept_proxy m v = true
    · rw [if_pos ha]; simp
    · rw [if_neg ha]; omega
  | error e =>
    rw [handle_completed_valid_err m p r s i e h]
    omega

lemma handle_completed_valid_mem (m : ℚ) (p : List String)
    (r : Nat → Except Unit (Bool × Option ℚ)) (s : AsyncState) (i : Nat) (q : String)
    (hq : q ∈ (handle_completed m p r s i).valid_proxies) :
    q ∈ s.valid_proxies ∨ q = p.getD i "" := by
  cases h : r i with
  | ok v =>
    rw [handle_completed_valid_ok m p r s i v h] at hq
    by_cases ha : accept_proxy m v = true
    · rw [if_pos ha] at hq
      rcases List.mem_append.mp hq with h1 | h1
      · exact Or.inl h1
      · exact Or.inr (List.mem_singleton.mp h1)
    · rw [if_neg ha] at hq
      exact Or.inl hq
  | error e =>
    rw [handle_completed_valid_err m p r s i e h] at hq
    exact Or.inl hq

lemma foldl_handle_pending (m : ℚ) (p : List String)
    (r : Nat → Except Unit (Bool × Option ℚ)) (l : List Nat) (s : AsyncState) :
    (l.foldl (handle_completed m p r) s).pending_tasks = s.pending_tasks := by
  induction l generalizing s with
  | nil => rfl
  | cons a t ih => rw [List.foldl_cons, ih, handle_completed_pending]

lemma foldl_handle_next (m : ℚ) (p : List String)
    (r : Nat → Except Unit (Bool × Option ℚ)) (l : List Nat) (s : AsyncState) :
    (l.foldl (handle_completed m p r) s).next_proxy_index = s.next_proxy_index := by
  induction l generalizing s with
  | nil => rfl
  | cons a t ih => rw [List.foldl_cons, ih, handle_completed_next]

lemma foldl_handle_iteration (m : ℚ) (p : List String)
    (r : Nat → Except Unit (Bool × Option ℚ)) (l : List Nat) (s : AsyncState) :
    (l.foldl (handle_completed m p r) s).iteration = s.iteration := by
  induction l generalizing s with
  | nil => rfl
  | cons a t ih => rw [List.foldl_cons, ih, handle_completed_iteration]

lemma foldl_handle_completed_count (m : ℚ) (p : List String)
    (r : Nat → Except Unit (Bool × Option ℚ)) (l : List Nat) (s : AsyncState) :
    (l.foldl (handle_completed m p r) s).completed_count
      = s.completed_count + l.length := by
  induction l generalizing s with
  | nil => rfl
  | cons a t ih =>
    rw [List.foldl_cons, ih, handle_completed_completed]
    simp only [List.length_cons]
    omega

lemma foldl_handle_valid_le (m : ℚ) (p : List String)
    (r : Nat → Except Unit (Bool × Option ℚ)) (l : List Nat) (s : AsyncState) :
    (l.foldl (handle_completed m p r) s).valid_proxies.length
      ≤ s.valid_proxies.length + l.length := by
  induction l generalizing s with
  | nil => simp
  | cons a t ih =>
    rw [List.foldl_cons]
    have h1 := ih (handle_completed m p r s a)
    have h2 := handle_completed_valid_le m p r s a
    simp only [List.length_cons]
    omega

lemma foldl_handle_valid_mem (m : ℚ) (p : List String)
    (r : Nat → Except Unit (Bool × Option ℚ)) (l : List Nat) (s : AsyncState)
    (q : String) (hq : q ∈ (l.foldl (handle_completed m p r) s).valid_proxies) :
    q ∈ s.valid_proxies ∨ ∃ i ∈ l, q = p.getD i "" := by
  induction l generalizing s with
  | nil => exact Or.inl hq
  | cons a t ih =>
    rw [List.foldl_cons] at hq
    rcases ih (handle_completed m p r s a) hq with h | ⟨i, hi, rfl⟩
    · rcases handle_completed_valid_mem m p r s a q h with h2 | h2
      · exact Or.inl h2
      · exact Or.inr ⟨a, List.mem_cons_self a t, h2⟩
    · exact Or.inr ⟨i, List.mem_cons_of_mem _ hi, rfl⟩

/-- The `valid_proxies` list always consists of exactly the harvested
results that pass the acceptance test, in harvest order. -/
def accepted_view (m : ℚ) (rs : List (String × (Bool × Option ℚ))) : List String :=
  rs.filterMap (fun pr => if accept_proxy m pr.2 then some pr.1 else none)

lemma accepted_view_append (m : ℚ) (rs ts : List (String × (Bool × Option ℚ))) :
    accepted_view m (rs ++ ts) = accepted_view m rs ++ accepted_view m ts := by
  simp [accepted_view]

lemma handle_completed_view (m : ℚ) (p : List String)
    (r : Nat → Except Unit (Bool × Option ℚ)) (s : AsyncState) (i : Nat)
    (h : s.valid_proxies = accepted_view m s.returned_results) :
    (handle_completed m p r s i).valid_proxies
      = accepted_view m (handle_completed m p r s i).returned_results := by
  cases hr : r i with
  | ok v =>
    rw [handle_completed_valid_ok m p r s i v hr,
        handle_completed_returned_ok m p r s i v hr, accepted_view_append]
    by_cases ha : accept_proxy m v = true
    · rw [if_pos ha, h]
      simp [accepted_view, ha]
    · rw [if_neg ha, h]
      simp [accepted_view, ha]
  | error e =>
    rw [handle_completed_valid_err m p r s i e hr,
        handle_completed_returned_err m p r s i e hr]
    exact h

lemma foldl_handle_view (m : ℚ) (p : List String)
    (r : Nat → Except Unit (Bool × Option ℚ)) (l : List Nat) (s : AsyncState)
    (h : s.valid_proxies = accepted_view m s.returned_results) :
    (l.foldl (handle_completed m p r) s).valid_proxies
      = accepted_view m (l.foldl (handle_completed m p r) s).returned_results := by
  induction l generalizing s with
  | nil => exact h
  | cons a t ih =>
    rw [List.foldl_cons]
    exact ih _ (handle_completed_view m p r s a h)

lemma handle_completed_log_eq (m : ℚ) (p : List String)
    (r : Nat → Except Unit (Bool × Option ℚ)) (s : AsyncState) (i : Nat) :
    (handle_completed m p r s i).progress_log =
      if should_report p.length (s.completed_count + 1) then
        s.progress_log
          ++ [(s.completed_count + 1, (handle_completed m p r s i).valid_proxies.length)]
      else s.progress_log := rfl

lemma handle_completed_log_mem (m : ℚ) (p : List String)
    (r : Nat → Except Unit (Bool × Option ℚ)) (s : AsyncState) (i : Nat)
    (e : Nat × Nat) (he : e ∈ (handle_completed m p r s i).progress_log) :
    e ∈ s.progress_log ∨ should_report p.length e.1 = true := by
  rw [handle_completed_log_eq] at he
  by_cases hs : should_report p.length (s.completed_count + 1) = true
  · rw [if_pos hs] at he
    rcases List.mem_append.mp he with h1 | h1
    · exact Or.inl h1
    · rw [List.mem_singleton.mp h1]
      exact Or.inr hs
  · rw [if_neg hs] at he
    exact Or.inl he

lemma foldl_handle_log_mem (m : ℚ) (p : List String)
    (r : Nat → Except Unit (Bool × Option ℚ)) (l : List Nat) (s : AsyncState)
    (e : Nat × Nat) (he : e ∈ (l.foldl (handle_completed m p r) s).progress_log) :
    e ∈ s.progress_log ∨ should_report p.length e.1 = true := by
  induction l generalizing s with
  | nil => exact Or.inl he
  | cons a t ih =>
    rw [List.foldl_cons] at he
    rcases ih (handle_completed m p r s a) he with h | h
    · exact handle_completed_log_mem m p r s a e h
    · exact Or.inr h

lemma length_filter_not_lt (l : List Nat) (p : Nat → Bool)
    (h : l.filter p ≠ []) :
    (l.filter (fun x => !(p x))).length < l.length := by
  induction l with
  | nil => simp at h
  | cons a t ih =>
    by_cases hp : p a = true
    · have h1 : (List.filter (fun x => !(p x)) (a :: t)).length
          = (t.filter (fun x => !(p x))).length := by
        simp [List.filter_cons, hp]
      rw [h1]
      have h2 := List.length_filter_le (fun x => !(p x)) t
      simp only [List.length_cons]
      omega
    · have hp' : p a = false := by revert hp; cases p a <;> simp
      have h2 : t.filter p ≠ [] := by
        intro hc
        apply h
        simp [List.filter_cons, hp', hc]
      have h3 := ih h2
      have h4 : (List.filter (fun x => !(p x)) (a :: t)).length
          = (t.filter (fun x => !(p x))).length + 1 := by
        simp [List.filter_cons, hp']
      rw [h4]
      simp only [List.length_cons]
      omega

lemma scheduler_step_measure (conc : Nat) (m : ℚ) (proxies : List String)
    (oracle : Nat → Nat → Bool) (r : Nat → Except Unit (Bool × Option ℚ))
    (s : AsyncState) (h : s.pending_tasks ≠ []) :
    run_measure proxies.length (scheduler_step conc m proxies oracle r s)
      < run_measure proxies.length s := by
  simp only [scheduler_step]
  by_cases hd : (s.pending_tasks.filter (oracle s.iteration)).isEmpty = true
  · rw [if_pos hd, fill_tasks_measure]
    have hlen : s.pending_tasks.length ≠ 0 := by
      intro hc
      exact h (List.eq_nil_of_length_eq_zero hc)
    simp only [run_measure, List.length_nil]
    omega
  · rw [if_neg hd, fill_tasks_measure]
    have hne : s.pending_tasks.filter (oracle s.iteration) ≠ [] := by
      intro hc
      apply hd
      rw [hc]
      rfl
    have h3 := length_filter_not_lt s.pending_tasks (oracle s.iteration) hne
    simp only [run_measure, foldl_handle_pending, foldl_handle_next]
    omega

lemma scheduler_loop_drains (conc : Nat) (m : ℚ) (proxies : List String)
    (oracle : Nat → Nat → Bool) (r : Nat → Except Unit (Bool × Option ℚ))
    (fuel : Nat) (s : AsyncState)
    (h : run_measure proxies.length s ≤ fuel) :
    (scheduler_loop conc m proxies oracle r fuel s).pending_tasks = [] := by
  induction fuel generalizing s with
  | zero =>
    simp only [scheduler_loop]
    have h1 : s.pending_tasks.length = 0 := by
      simp only [run_measure] at h
      omega
    exact List.eq_nil_of_length_eq_zero h1
  | succ n ih =>
    simp only [scheduler_loop]
    by_cases hp : s.pending_tasks.isEmpty = true
    · rw [if_pos hp]
      exact List.isEmpty_iff.mp hp
    · rw [if_neg hp]
      apply ih
      have hne : s.pending_tasks ≠ [] := by
        intro hc
        apply hp
        rw [hc]
        rfl
      have h2 := scheduler_step_measure conc m proxies oracle r s hne
      omega

lemma getD_mem (proxies : List String) (i : Nat) (h : i < proxies.length) :
    proxies.getD i "" ∈ proxies := by
  have h1 : proxies.getD i "" = proxies[i] := by
    simp [List.getD_eq_getElem?_getD, List.getElem?_eq_getElem h]
  rw [h1]
  exact List.getElem_mem h

lemma length_filter_add_not (l : List Nat) (p : Nat → Bool) :
    (l.filter p).length + (l.filter (fun x => !(p x))).length = l.length := by
  induction l with
  | nil => simp
  | cons a t ih =>
    by_cases hp : p a = true
    · simp [List.filter_cons, hp]
      omega
    · have hp' : p a = false := by revert hp; cases p a <;> simp
      simp [List.filter_cons, hp']
      omega

/-- The state invariant of the waiting loop, holding at every loop head:
the in-flight window respects the concurrency ceiling; every admitted
index is either resolved or in flight; the cursor never passes the end;
in-flight indices are admitted indices; no more proxies have been
validated than resolved; validated proxies come from the candidate list
and are exactly the accepted harvested results; and every emitted
progress line satisfied the reporting condition. -/
structure SchedInv (conc : Nat) (m : ℚ) (proxies : List String)
    (s : AsyncState) : Prop where
  pending_le : s.pending_tasks.length ≤ conc
  count_eq : s.completed_count + s.pending_tasks.length = s.next_proxy_index
  next_le : s.next_proxy_index ≤ proxies.length
  pending_lt : ∀ i ∈ s.pending_tasks, i < s.next_proxy_index
  valid_le : s.valid_proxies.length ≤ s.completed_count
  valid_mem : ∀ q ∈ s.valid_proxies, q ∈ proxies
  view : s.valid_proxies = accepted_view m s.returned_results
  log_ok : ∀ e ∈ s.progress_log, should_report proxies.length e.1 = true

lemma fill_inv (conc : Nat) (m : ℚ) (proxies : List String) (s : AsyncState)
    (hs : SchedInv conc m proxies s) :
    SchedInv conc m proxies (fill_tasks conc proxies.length s) := by
  constructor
  · exact fill_tasks_length_le conc proxies.length s hs.pending_le
  · rw [fill_tasks_completed, fill_tasks_pending_length, fill_tasks_next]
    have h := hs.count_eq
    omega
  · exact fill_tasks_next_le conc proxies.length s hs.next_le
  · intro i hi
    rcases fill_tasks_pending_mem conc proxies.length s i hi with h | ⟨h1, h2⟩
    · exact Nat.lt_of_lt_of_le (hs.pending_lt i h)
        (fill_tasks_next_ge conc proxies.length s)
    · exact h2
  · rw [fill_tasks_valid, fill_tasks_completed]
    exact hs.valid_le
  · rw [fill_tasks_valid]
    exact hs.valid_mem
  · rw [fill_tasks_valid, fill_tasks_returned]
    exact hs.view
  · rw [fill_tasks_log]
    exact hs.log_ok

lemma init_state_inv (conc : Nat) (m : ℚ) (proxies : List String) :
    SchedInv conc m proxies init_state := by
  constructor <;> simp [init_state, accepted_view]

lemma scheduler_step_inv (conc : Nat) (m : ℚ) (proxies : List String)
    (oracle : Nat → Nat → Bool) (r : Nat → Except Unit (Bool × Option ℚ))
    (s : AsyncState) (hs : SchedInv conc m proxies s) :
    SchedInv conc m proxies (scheduler_step conc m proxies oracle r s) := by
  simp only [scheduler_step]
  by_cases hd : (s.pending_tasks.filter (oracle s.iteration)).isEmpty = true
  · rw [if_pos hd]
    apply fill_inv
    constructor
    · simp
    · simp
      have h := hs.count_eq
      omega
    · exact hs.next_le
    · intro i hi
      simp at hi
    · simp
      have h := hs.valid_le
      omega
    · exact hs.valid_mem
    · exact hs.view
    · exact hs.log_ok
  · rw [if_neg hd]
    apply fill_inv
    show SchedInv conc m proxies
      ((s.pending_tasks.filter (oracle s.iteration)).foldl
        (handle_completed m proxies r)
        { s with
          pending_tasks := s.pending_tasks.filter (fun i => !(oracle s.iteration i))
          iteration := s.iteration + 1 })
    have hadd := length_filter_add_not s.pending_tasks (oracle s.iteration)
    have hdone_sub : ∀ i ∈ s.pending_tasks.filter (oracle s.iteration),
        i ∈ s.pending_tasks := by
      intro i hi
      exact (List.mem_filter.mp hi).1
    have hcount := hs.count_eq
    have hvalid := hs.valid_le
    constructor
    · rw [foldl_handle_pending]
      simp only
      have h1 := List.length_filter_le (fun i => !(oracle s.iteration i)) s.pending_tasks
      have h2 := hs.pending_le
      omega
    · rw [foldl_handle_pending, foldl_handle_next, foldl_handle_completed_count]
      simp only
      omega
    · rw [foldl_handle_next]
      exact hs.next_le
    · intro i hi
      rw [foldl_handle_pending] at hi
      rw [foldl_handle_next]
      simp only at hi ⊢
      exact hs.pending_lt i (List.mem_filter.mp hi).1
    · rw [foldl_handle_completed_count]
      have h1 := foldl_handle_valid_le m proxies r
        (s.pending_tasks.filter (oracle s.iteration))
        { s with
          pending_tasks := s.pending_tasks.filter (fun i => !(oracle s.iteration i))
          iteration := s.iteration + 1 }
      simp only at h1 ⊢
      omega
    · intro q hq
      rcases foldl_handle_valid_mem m proxies r _ _ q hq with h | ⟨i, hi, rfl⟩
      · exact hs.valid_mem q h
      · have h1 : i < proxies.length :=
          Nat.lt_of_lt_of_le (hs.pending_lt i (hdone_sub i hi)) hs.next_le
        exact getD_mem proxies i h1
    · exact foldl_handle_view m proxies r _ _ hs.view
    · intro e he
      rcases foldl_handle_log_mem m proxies r _ _ e he with h | h
      · exact hs.log_ok e h
      · exact h

lemma async_reach_inv (conc : Nat) (m : ℚ) (proxies : List String)
    (oracle : Nat → Nat → Bool) (r : Nat → Except Unit (Bool × Option ℚ))
    (s0 s : AsyncState) (h0 : SchedInv conc m proxies s0)
    (h : async_reach conc m proxies oracle r s0 s) :
    SchedInv conc m proxies s := by
  induction h with
  | refl => exact h0
  | tail h1 h2 ih =>
    rcases h2 with ⟨hne, rfl⟩
    exact scheduler_step_inv conc m proxies oracle r _ ih

lemma scheduler_loop_inv (conc : Nat) (m : ℚ) (proxies : List String)
    (oracle : Nat → Nat → Bool) (r : Nat → Except Unit (Bool × Option ℚ))
    (fuel : Nat) (s : AsyncState) (hs : SchedInv conc m proxies s) :
    SchedInv conc m proxies (scheduler_loop conc m proxies oracle r fuel s) := by
  induction fuel generalizing s with
  | zero => exact hs
  | succ n ih =>
    simp only [scheduler_loop]
    by_cases hp : s.pending_tasks.isEmpty = true
    · rw [if_pos hp]
      exact hs
    · rw [if_neg hp]
      exact ih _ (scheduler_step_inv conc m proxies oracle r s hs)

lemma pool_step_inflight_le (workers total : Nat) (t t' : PoolState)
    (h : pool_step workers total t t') (ht : t.inflight.length ≤ workers) :
    t'.inflight.length ≤ workers := by
  cases h with
  | pickup h1 h2 =>
    simp only [List.length_append, List.length_cons, List.length_nil]
    omega
  | complete i h1 =>
    have h2 := List.length_erase_le i t.inflight
    exact Nat.le_trans h2 ht

lemma pool_reach_inflight_le (workers total : Nat) (t : PoolState)
    (h : pool_reach workers total { next_index := 0, inflight := [] } t) :
    t.inflight.length ≤ workers := by
  induction h with
  | refl => simp
  | tail h1 h2 ih => exact pool_step_inflight_le workers total _ _ h2 ih

lemma scheduler_step_next_ge (conc : Nat) (m : ℚ) (proxies : List String)
    (oracle : Nat → Nat → Bool) (r : Nat → Except Unit (Bool × Option ℚ))
    (s : AsyncState) :
    s.next_proxy_index
      ≤ (scheduler_step conc m proxies oracle r s).next_proxy_index := by
  simp only [scheduler_step]
  by_cases hd : (s.pending_tasks.filter (oracle s.iteration)).isEmpty = true
  · rw [if_pos hd]
    exact fill_tasks_next_ge conc proxies.length
      { s with
        completed_count := s.completed_count + s.pending_tasks.length
        pending_tasks := []
        iteration := s.iteration + 1 }
  · rw [if_neg hd]
    have h := fill_tasks_next_ge conc proxies.length
      ((s.pending_tasks.filter (oracle s.iteration)).foldl
        (handle_completed m proxies r)
        { s with
          pending_tasks := s.pending_tasks.filter (fun i => !(oracle s.iteration i))
          iteration := s.iteration + 1 })
    rw [foldl_handle_next] at h
    exact h

lemma scheduler_step_pending_ge (conc : Nat) (m : ℚ) (proxies : List String)
    (oracle : Nat → Nat → Bool) (r : Nat → Except Unit (Bool × Option ℚ))
    (s : AsyncState) (c : Nat) (hc : c ≤ s.next_proxy_index)
    (hp : ∀ i ∈ s.pending_tasks, c ≤ i) :
    ∀ i ∈ (scheduler_step conc m proxies oracle r s).pending_tasks, c ≤ i := by
  simp only [scheduler_step]
  by_cases hd : (s.pending_tasks.filter (oracle s.iteration)).isEmpty = true
  · rw [if_pos hd]
    intro i hi
    rcases fill_tasks_pending_mem conc proxies.length _ i hi with h | ⟨h1, _⟩
    · simp at h
    · exact Nat.le_trans hc h1
  · rw [if_neg hd]
    intro i hi
    rcases fill_tasks_pending_mem conc proxies.length _ i hi with h | ⟨h1, _⟩
    · rw [foldl_handle_pending] at h
      exact hp i (List.mem_filter.mp h).1
    · rw [foldl_handle_next] at h1
      exact Nat.le_trans hc h1

lemma async_reach_pending_ge (conc : Nat) (m : ℚ) (proxies : List String)
    (oracle : Nat → Nat → Bool) (r : Nat → Except Unit (Bool × Option ℚ))
    (c : Nat) (s0 s : AsyncState) (hc : c ≤ s0.next_proxy_index)
    (hp : ∀ i ∈ s0.pending_tasks, c ≤ i)
    (h : async_reach conc m proxies oracle r s0 s) :
    (∀ i ∈ s.pending_tasks, c ≤ i) ∧ c ≤ s.next_proxy_index := by
  induction h with
  | refl => exact ⟨hp, hc⟩
  | tail h1 h2 ih =>
    rcases h2 with ⟨hne, rfl⟩
    exact ⟨scheduler_step_pending_ge conc m proxies oracle r _ c ih.2 ih.1,
           Nat.le_trans ih.2 (scheduler_step_next_ge conc m proxies oracle r _)⟩

/-- The stall branch of the waiting loop, as an equation: with no task
completed within the window, the step cancels and resolves all in-flight
tasks and refills from the cursor. -/
lemma scheduler_step_stall (conc : Nat) (m : ℚ) (proxies : List String)
    (oracle : Nat → Nat → Bool) (r : Nat → Except Unit (Bool × Option ℚ))
    (s : AsyncState) (hstall : s.pending_tasks.filter (oracle s.iteration) = []) :
    scheduler_step conc m proxies oracle r s =
      fill_tasks conc proxies.length
        { s with
          completed_count := s.completed_count + s.pending_tasks.length
          pending_tasks := []
          iteration := s.iteration + 1 } := by
  simp only [scheduler_step, hstall, List.isEmpty_nil, if_true]

/-- Two scheduler states that agree on everything except the emitted
progress log. -/
def same_core (s t : AsyncState) : Prop :=
  s.pending_tasks = t.pending_tasks ∧
  s.completed_count = t.completed_count ∧
  s.next_proxy_index = t.next_proxy_index ∧
  s.valid_proxies = t.valid_proxies ∧
  s.returned_results = t.returned_results ∧
  s.iteration = t.iteration

lemma handle_completed_core (m : ℚ) (p : List String)
    (r : Nat → Except Unit (Bool × Option ℚ)) (s t : AsyncState) (i : Nat)
    (h : same_core s t) :
    same_core (handle_completed m p r s i) (handle_completed m p r t i) := by
  rcases h with ⟨h1, h2, h3, h4, h5, h6⟩
  refine ⟨?_, ?_, ?_, ?_, ?_, ?_⟩ <;>
    simp [handle_completed, h1, h2, h3, h4, h5, h6]

lemma foldl_handle_core (m : ℚ) (p : List String)
    (r : Nat → Except Unit (Bool × Option ℚ)) (l : List Nat) (s t : AsyncState)
    (h : same_core s t) :
    same_core (l.foldl (handle_completed m p r) s)
      (l.foldl (handle_completed m p r) t) := by
  induction l generalizing s t with
  | nil => exact h
  | cons a u ih =>
    rw [List.foldl_cons, List.foldl_cons]
    exact ih _ _ (handle_completed_core m p r s t a h)

lemma fill_tasks_core (conc total : Nat) (s t : AsyncState) (h : same_core s t) :
    same_core (fill_tasks conc total s) (fill_tasks conc total t) := by
  rcases h with ⟨h1, h2, h3, h4, h5, h6⟩
  refine ⟨?_, ?_, ?_, ?_, ?_, ?_⟩ <;> simp [fill_tasks, h1, h2, h3, h4, h5, h6]

lemma scheduler_step_core (conc : Nat) (m : ℚ) (proxies : List String)
    (oracle : Nat → Nat → Bool) (r : Nat → Except Unit (Bool × Option ℚ))
    (s t : AsyncState) (h : same_core s t) :
    same_core (scheduler_step conc m proxies oracle r s)
      (scheduler_step conc m proxies oracle r t) := by
  have h' := h
  rcases h' with ⟨h1, h2, h3, h4, h5, h6⟩
  simp only [scheduler_step, h1, h6]
  by_cases hd : (t.pending_tasks.filter (oracle t.iteration)).isEmpty = true
  · rw [if_pos hd, if_pos hd]
    apply fill_tasks_core
    exact ⟨rfl, by simp [h1, h2], h3, h4, h5, by simp [h6]⟩
  · rw [if_neg hd, if_neg hd]
    apply fill_tasks_core
    apply foldl_handle_core
    exact ⟨by simp [h1, h6], h2, h3, h4, h5, by simp [h6]⟩

lemma scheduler_loop_core (conc : Nat) (m : ℚ) (proxies : List String)
    (oracle : Nat → Nat → Bool) (r : Nat → Except Unit (Bool × Option ℚ))
    (fuel : Nat) (s t : AsyncState) (h : same_core s t) :
    same_core (scheduler_loop conc m proxies oracle r fuel s)
      (scheduler_loop conc m proxies oracle r fuel t) := by
  induction fuel generalizing s t with
  | zero => exact h
  | succ n ih =>
    have h1 : s.pending_tasks = t.pending_tasks := h.1
    simp only [scheduler_loop, h1]
    by_cases hp : t.pending_tasks.isEmpty = true
    · rw [if_pos hp, if_pos hp]
      exact h
    · rw [if_neg hp, if_neg hp]
      exact ih _ _ (scheduler_step_core conc m proxies oracle r s t h)

lemma sync_handle_completed_eq (m : ℚ) (p : List String) (net : Nat → HttpOutcome)
    (s : SyncState) (i : Nat) :
    (sync_handle m p net s i).completed = s.completed + 1 := rfl

lemma sync_handle_returned_eq (m : ℚ) (p : List String) (net : Nat → HttpOutcome)
    (s : SyncState) (i : Nat) :
    (sync_handle m p net s i).returned_results
      = s.returned_results ++ [(p.getD i "", test_proxy (net i))] := rfl

lemma sync_handle_valid_eq (m : ℚ) (p : List String) (net : Nat → HttpOutcome)
    (s : SyncState) (i : Nat) :
    (sync_handle m p net s i).valid_proxies
      = if accept_proxy m (test_proxy (net i)) then s.valid_proxies ++ [p.getD i ""]
        else s.valid_proxies := rfl

lemma sync_handle_log_eq (m : ℚ) (p : List String) (net : Nat → HttpOutcome)
    (s : SyncState) (i : Nat) :
    (sync_handle m p net s i).progress_log
      = if should_report p.length (s.completed + 1) then
          s.progress_log
            ++ [(s.completed + 1, (sync_handle m p net s i).valid_proxies.length)]
        else s.progress_log := rfl

lemma sync_handle_view (m : ℚ) (p : List String) (net : Nat → HttpOutcome)
    (s : SyncState) (i : Nat)
    (h : s.valid_proxies = accepted_view m s.returned_results) :
    (sync_handle m p net s i).valid_proxies
      = accepted_view m (sync_handle m p net s i).returned_results := by
  rw [sync_handle_valid_eq, sync_handle_returned_eq, accepted_view_append]
  by_cases ha : accept_proxy m (test_proxy (net i)) = true
  · rw [if_pos ha, h]
    simp [accepted_view, ha]
  · rw [if_neg ha, h]
    simp [accepted_view, ha]

lemma sync_foldl_view (m : ℚ) (p : List String) (net : Nat → HttpOutcome)
    (order : List Nat) (s : SyncState)
    (h : s.valid_proxies = accepted_view m s.returned_results) :
    (order.foldl (sync_handle m p net) s).valid_proxies
      = accepted_view m (order.foldl (sync_handle m p net) s).returned_results := by
  induction order generalizing s with
  | nil => exact h
  | cons a t ih =>
    rw [List.foldl_cons]
    exact ih _ (sync_handle_view m p net s a h)

lemma sync_handle_valid_le (m : ℚ) (p : List String) (net : Nat → HttpOutcome)
    (s : SyncState) (i : Nat) :
    (sync_handle m p net s i).valid_proxies.length ≤ s.valid_proxies.length + 1 := by
  rw [sync_handle_valid_eq]
  by_cases ha : accept_proxy m (test_proxy (net i)) = true
  · rw [if_pos ha]
    simp
  · rw [if_neg ha]
    omega

lemma sync_handle_valid_mem (m : ℚ) (p : List String) (net : Nat → HttpOutcome)
    (s : SyncState) (i : Nat) (q : String)
    (hq : q ∈ (sync_handle m p net s i).valid_proxies) :
    q ∈ s.valid_proxies ∨ q = p.getD i "" := by
  rw [sync_handle_valid_eq] at hq
  by_cases ha : accept_proxy m (test_proxy (net i)) = true
  · rw [if_pos ha] at hq
    rcases List.mem_append.mp hq with h1 | h1
    · exact Or.inl h1
    · exact Or.inr (List.mem_singleton.mp h1)
  · rw [if_neg ha] at hq
    exact Or.inl hq

lemma sync_foldl_completed (m : ℚ) (p : List String) (net : Nat → HttpOutcome)
    (order : List Nat) (s : SyncState) :
    (order.foldl (sync_handle m p net) s).completed = s.completed + order.length := by
  induction order generalizing s with
  | nil => rfl
  | cons a t ih =>
    rw [List.foldl_cons, ih, sync_handle_completed_eq]
    simp only [List.length_cons]
    omega

lemma sync_foldl_valid_le (m : ℚ) (p : List String) (net : Nat → HttpOutcome)
    (order : List Nat) (s : SyncState) :
    (order.foldl (sync_handle m p net) s).valid_proxies.length
      ≤ s.valid_proxies.length + order.length := by
  induction order generalizing s with
  | nil => simp
  | cons a t ih =>
    rw [List.foldl_cons]
    have h1 := ih (sync_handle m p net s a)
    have h2 := sync_handle_valid_le m p net s a
    simp only [List.length_cons]
    omega

lemma sync_foldl_valid_mem (m : ℚ) (p : List String) (net : Nat → HttpOutcome)
    (order : List Nat) (s : SyncState) (q : String)
    (hq : q ∈ (order.foldl (sync_handle m p net) s).valid_proxies) :
    q ∈ s.valid_proxies ∨ ∃ i ∈ order, q = p.getD i "" := by
  induction order generalizing s with
  | nil => exact Or.inl hq
  | cons a t ih =>
    rw [List.foldl_cons] at hq
    rcases ih (sync_handle m p net s a) hq with h | ⟨i, hi, rfl⟩
    · rcases sync_handle_valid_mem m p net s a q h with h2 | h2
      · exact Or.inl h2
      · exact Or.inr ⟨a, List.mem_cons_self a t, h2⟩
    · exact Or.inr ⟨i, List.mem_cons_of_mem _ hi, rfl⟩

/-- The sync validator's progress log holds exactly the resolved counts
satisfying the reporting condition: `completed` walks 1, 2, …, and the
check runs after every single increment. -/
lemma sync_foldl_log_fst (m : ℚ) (p : List String) (net : Nat → HttpOutcome)
    (order : List Nat) (s : SyncState) :
    ((order.foldl (sync_handle m p net) s).progress_log).map Prod.fst
      = s.progress_log.map Prod.fst
        ++ (List.range' (s.completed + 1) order.length).filter
            (fun c => should_report p.length c) := by
  induction order generalizing s with
  | nil => simp
  | cons a t ih =>
    rw [List.foldl_cons, ih, sync_handle_completed_eq]
    have hrange : List.range' (s.completed + 1) (a :: t).length
        = (s.completed + 1) :: List.range' (s.completed + 1 + 1) t.length := by
      simp [List.length_cons, List.range'_succ]
    rw [hrange, List.filter_cons]
    by_cases hr : should_report p.length (s.completed + 1) = true
    · rw [sync_handle_log_eq, if_pos hr, if_pos hr]
      simp
    · rw [sync_handle_log_eq, if_neg hr, if_neg hr]

lemma accept_proxy_iff (m : ℚ) (v : Bool × Option ℚ) :
    accept_proxy m v = true ↔ ∃ t : ℚ, v = (true, some t) ∧ t ≠ 0 ∧ t ≤ m := by
  rcases v with ⟨b, rt⟩
  cases rt with
  | none => simp [accept_proxy]
  | some t =>
    cases b with
    | false => simp [accept_proxy]
    | true => simp [accept_proxy, and_assoc]

lemma mem_accepted_view (m : ℚ) (rs : List (String × (Bool × Option ℚ)))
    (p : String) :
    p ∈ accepted_view m rs ↔
      ∃ t : ℚ, (p, (true, some t)) ∈ rs ∧ t ≠ 0 ∧ t ≤ m := by
  rw [accepted_view, List.mem_filterMap]
  constructor
  · rintro ⟨a, hmem, hf⟩
    by_cases ha : accept_proxy m a.2 = true
    · rw [if_pos ha] at hf
      injection hf with hf1
      obtain ⟨t, hv, ht0, htm⟩ := (accept_proxy_iff m a.2).mp ha
      refine ⟨t, ?_, ht0, htm⟩
      have hae : a = (p, (true, some t)) := Prod.ext_iff.mpr ⟨hf1, hv⟩
      rwa [hae] at hmem
    · rw [if_neg ha] at hf
      exact absurd hf (by simp)
  · rintro ⟨t, hmem, ht0, htm⟩
    refine ⟨(p, (true, some t)), hmem, ?_⟩
    have ha : accept_proxy m (true, some t) = true :=
      (accept_proxy_iff m _).mpr ⟨t, rfl, ht0, htm⟩
    simp [ha]

lemma validate_async_inv (cfg : Config) (deps : Bool) (proxies : List String)
    (oracle : Nat → Nat → Bool) (net : Nat → HttpOutcome) :
    SchedInv cfg.async_validator_concurrency cfg.max_response_time proxies
      (validate_proxies_async cfg deps proxies oracle net) := by
  simp only [validate_proxies_async]
  by_cases h : proxies.length = 0
  · rw [if_pos h]
    exact init_state_inv _ _ _
  · rw [if_neg h]
    exact scheduler_loop_inv _ _ _ _ _ _ _
      (fill_inv _ _ _ _ (init_state_inv _ _ _))

lemma validate_async_pending_nil (cfg : Config) (deps : Bool)
    (proxies : List String) (oracle : Nat → Nat → Bool) (net : Nat → HttpOutcome) :
    (validate_proxies_async cfg deps proxies oracle net).pending_tasks = [] := by
  simp only [validate_proxies_async]
  by_cases h : proxies.length = 0
  · rw [if_pos h]
    rfl
  · rw [if_neg h]
    apply scheduler_loop_drains
    rw [fill_tasks_measure]
    simp [run_measure, init_state]

lemma fill_tasks_full (conc total : Nat) (s : AsyncState)
    (hnext : s.next_proxy_index ≤ total)
    (h : (fill_tasks conc total s).pending_tasks = []) :
    (fill_tasks conc total s).next_proxy_index = total ∨ conc = 0 := by
  have hlen := fill_tasks_pending_length conc total s
  rw [h, List.length_nil] at hlen
  have hplen : s.pending_tasks.length = 0 := by omega
  have hk : min (total - s.next_proxy_index) (conc - s.pending_tasks.length) = 0 := by
    omega
  rw [fill_tasks_next, hk]
  rw [hplen] at hk
  by_cases hab : total - s.next_proxy_index ≤ conc - 0
  · rw [min_eq_left hab] at hk
    left
    omega
  · rw [min_eq_right (le_of_not_le hab)] at hk
    right
    omega

lemma scheduler_step_full (conc : Nat) (m : ℚ) (proxies : List String)
    (oracle : Nat → Nat → Bool) (r : Nat → Except Unit (Bool × Option ℚ))
    (s : AsyncState) (hs : SchedInv conc m proxies s)
    (h : (scheduler_step conc m proxies oracle r s).pending_tasks = []) :
    (scheduler_step conc m proxies oracle r s).next_proxy_index = proxies.length
      ∨ conc = 0 := by
  simp only [scheduler_step] at h ⊢
  by_cases hd : (s.pending_tasks.filter (oracle s.iteration)).isEmpty = true
  · rw [if_pos hd] at h ⊢
    exact fill_tasks_full _ _ _ hs.next_le h
  · rw [if_neg hd] at h ⊢
    refine fill_tasks_full _ _ _ ?_ h
    rw [foldl_handle_next]
    exact hs.next_le

lemma scheduler_loop_full (conc : Nat) (m : ℚ) (proxies : List String)
    (oracle : Nat → Nat → Bool) (r : Nat → Except Unit (Bool × Option ℚ))
    (fuel : Nat) (s : AsyncState) (hs : SchedInv conc m proxies s)
    (hP : s.pending_tasks = [] →
      s.next_proxy_index = proxies.length ∨ conc = 0)
    (h : (scheduler_loop conc m proxies oracle r fuel s).pending_tasks = []) :
    (scheduler_loop conc m proxies oracle r fuel s).next_proxy_index
      = proxies.length ∨ conc = 0 := by
  induction fuel generalizing s with
  | zero => exact hP h
  | succ n ih =>
    simp only [scheduler_loop] at h ⊢
    by_cases hp : s.pending_tasks.isEmpty = true
    · rw [if_pos hp] at h ⊢
      exact hP h
    · rw [if_neg hp] at h ⊢
      exact ih _ (scheduler_step_inv conc m proxies oracle r s hs)
        (fun hpend => scheduler_step_full conc m proxies oracle r s hs hpend) h

/-- With a positive concurrency ceiling, every candidate is eventually
resolved exactly once: the final `completed_count` equals the candidate
count, whether tasks completed normally or were cancelled in a
stall-recovery cycle. -/
lemma validate_async_completed (cfg : Config) (deps : Bool)
    (proxies : List String) (oracle : Nat → Nat → Bool) (net : Nat → HttpOutcome)
    (hconc : 1 ≤ cfg.async_validator_concurrency) :
    (validate_proxies_async cfg deps proxies oracle net).completed_count
      = proxies.length := by
  simp only [validate_proxies_async]
  by_cases h0 : proxies.length = 0
  · rw [if_pos h0, h0]
    rfl
  · rw [if_neg h0]
    have hinv0 : SchedInv cfg.async_validator_concurrency cfg.max_response_time proxies
        (fill_tasks cfg.async_validator_concurrency proxies.length init_state) :=
      fill_inv _ _ _ _ (init_state_inv _ _ _)
    have hdrain := scheduler_loop_drains cfg.async_validator_concurrency
      cfg.max_response_time proxies oracle
      (fun i => test_proxy_async deps (proxies.getD i "") (net i)) proxies.length
      (fill_tasks cfg.async_validator_concurrency proxies.length init_state)
      (by rw [fill_tasks_measure]; simp [run_measure, init_state])
    have hfull := scheduler_loop_full cfg.async_validator_concurrency
      cfg.max_response_time proxies oracle
      (fun i => test_proxy_async deps (proxies.getD i "") (net i)) proxies.length
      (fill_tasks cfg.async_validator_concurrency proxies.length init_state) hinv0
      (fun hpend => fill_tasks_full _ _ _ (by simp [init_state]) hpend) hdrain
    have hinv := scheduler_loop_inv cfg.async_validator_concurrency
      cfg.max_response_time proxies oracle
      (fun i => test_proxy_async deps (proxies.getD i "") (net i)) proxies.length
      (fill_tasks cfg.async_validator_concurrency proxies.length init_state) hinv0
    have hc := hinv.count_eq
    rw [hdrain, List.length_nil] at hc
    rcases hfull with hnext | hconc0
    · omega
    · omega

lemma handle_response_latency (st : Nat) (b : JsonBody) (t : ℚ) :
    (handle_response st b t).2 = some t := by
  unfold handle_response
  split
  · cases b <;> rfl
  · rfl

/-- When the async dependencies are importable, the async probe returns
exactly the sync probe's result for the same network outcome: the SOCKS
and HTTP branches share the response handling. -/
lemma test_proxy_async_deps (proxy : String) (o : HttpOutcome) :
    test_proxy_async true proxy o = Except.ok (test_proxy o) := by
  simp only [test_proxy_async]
  rw [if_neg (by decide)]
  by_cases hscheme :
      (starts_with proxy "socks5://" || starts_with proxy "socks4://") = true
  · rw [if_pos hscheme]
    cases o <;> rfl
  · rw [if_neg hscheme]
    cases o <;> rfl

/-! ### Claim theorems -/

/-- C1: at every point of a validation run — in every scheduler state
reachable from the initially-filled state of `validate_proxies_async`,
and in every thread-pool state reachable in the sync validator — the
number of in-flight probes never exceeds the configured ceiling
(`async_validator_concurrency`, respectively `validator_workers`); in
particular every admission step (initial fill, top-up, stall refill)
preserves the bound. -/
theorem C1_inflight_never_exceeds_ceiling (cfg : Config) (proxies : List String)
    (oracle : Nat → Nat → Bool) (r : Nat → Except Unit (Bool × Option ℚ))
    (s : AsyncState)
    (hs : async_reach cfg.async_validator_concurrency cfg.max_response_time proxies
      oracle r (fill_tasks cfg.async_validator_concurrency proxies.length init_state) s)
    (t : PoolState)
    (ht : pool_reach cfg.validator_workers proxies.length
      { next_index := 0, inflight := [] } t) :
    s.pending_tasks.length ≤ cfg.async_validator_concurrency ∧
    t.inflight.length ≤ cfg.validator_workers :=
  ⟨(async_reach_inv _ _ _ _ _ _ _ (fill_inv _ _ _ _ (init_state_inv _ _ _)) hs).pending_le,
   pool_reach_inflight_le _ _ _ ht⟩

/-- Witness for C1 at a concrete two-candidate run, in the initial state
of both modes. -/
theorem C1_witness :
    (fill_tasks CONFIG.async_validator_concurrency
        (["http://a:1", "http://b:2"] : List String).length
        init_state).pending_tasks.length
      ≤ CONFIG.async_validator_concurrency ∧
    (PoolState.mk 0 []).inflight.length ≤ CONFIG.validator_workers :=
  C1_inflight_never_exceeds_ceiling CONFIG ["http://a:1", "http://b:2"]
    (fun _ _ => true) (fun _ => Except.ok (true, some 1)) _
    Relation.ReflTransGen.refl _ Relation.ReflTransGen.refl

/-- C2 counterexample: a probe that returns `usable=true` with a present
latency of exactly 0 — which is `≤ max_response_time` — is nevertheless
rejected, because the source's acceptance condition
`if is_valid and response_time and ...` treats the float `0.0` as falsy.
So membership in the validated output is not equivalent to having a
probe return `usable=true` with a present latency `≤ max_response_time`. -/
theorem C2_counterexample :
    ¬ (("http://a:1" ∈ (validate_proxies_async CONFIG true ["http://a:1"]
          (fun _ _ => true)
          (fun _ => HttpOutcome.resp 200 JsonBody.withOrigin 0)).valid_proxies) ↔
        ∃ t : ℚ,
          ("http://a:1", (true, some t)) ∈ (validate_proxies_async CONFIG true
            ["http://a:1"] (fun _ _ => true)
            (fun _ => HttpOutcome.resp 200 JsonBody.withOrigin 0)).returned_results ∧
          t ≤ CONFIG.max_response_time) := by
  intro h
  have h2 := h.mpr ⟨0, by decide, by decide⟩
  exact absurd h2 (by decide)

/-- C2 amended: an endpoint string is in the validated output of either
validator if and only if some probe of it returned `usable=true` with a
present AND NONZERO latency that is `≤ max_response_time`; an endpoint is
never included merely because it appears in the input. -/
theorem C2_validated_iff_amended (cfg : Config) (deps : Bool)
    (proxies : List String) (oracle : Nat → Nat → Bool)
    (net sync_net : Nat → HttpOutcome) (order : List Nat) (p : String) :
    ((p ∈ (validate_proxies_async cfg deps proxies oracle net).valid_proxies) ↔
      ∃ t : ℚ,
        (p, (true, some t)) ∈ (validate_proxies_async cfg deps proxies oracle
          net).returned_results ∧ t ≠ 0 ∧ t ≤ cfg.max_response_time) ∧
    ((p ∈ (validate_proxies_sync cfg proxies sync_net order).valid_proxies) ↔
      ∃ t : ℚ,
        (p, (true, some t)) ∈ (validate_proxies_sync cfg proxies sync_net
          order).returned_results ∧ t ≠ 0 ∧ t ≤ cfg.max_response_time) := by
  constructor
  · rw [(validate_async_inv cfg deps proxies oracle net).view]
    exact mem_accepted_view _ _ _
  · rw [show (validate_proxies_sync cfg proxies sync_net order).valid_proxies
        = accepted_view cfg.max_response_time
            (validate_proxies_sync cfg proxies sync_net order).returned_results from
      sync_foldl_view _ _ _ _ _ rfl]
    exact mem_accepted_view _ _ _

/-- Witness for C2 at a concrete one-candidate async run. -/
theorem C2_witness :
    ("http://a:1" ∈ (validate_proxies_async CONFIG true ["http://a:1"]
        (fun _ _ => true)
        (fun _ => HttpOutcome.resp 200 JsonBody.withOrigin 1)).valid_proxies) ↔
      ∃ t : ℚ,
        ("http://a:1", (true, some t)) ∈ (validate_proxies_async CONFIG true
          ["http://a:1"] (fun _ _ => true)
          (fun _ => HttpOutcome.resp 200 JsonBody.withOrigin 1)).returned_results ∧
        t ≠ 0 ∧ t ≤ CONFIG.max_response_time :=
  (C2_validated_iff_amended CONFIG true ["http://a:1"] (fun _ _ => true)
    (fun _ => HttpOutcome.resp 200 JsonBody.withOrigin 1)
    (fun _ => HttpOutcome.resp 200 JsonBody.withOrigin 1) [0] "http://a:1").1

/-- C3 counterexample: a 200-status response whose body parses as JSON
but lacks the `"origin"` key falls through both probes'
success-returning branches and yields `usable=false`, contradicting the
claim that a body lacking the marker never by itself causes
`usable=false`. -/
theorem C3_counterexample :
    (test_proxy (HttpOutcome.resp 200 JsonBody.noOrigin 1)).1 = false ∧
    test_proxy_async true "http://a:1" (HttpOutcome.resp 200 JsonBody.noOrigin 1)
      = Except.ok (false, some 1) := by
  exact ⟨by decide, by rw [test_proxy_async_deps]; rfl⟩

/-- C3 amended: on a 200 status received in time, a body that fails to
parse as JSON is still `usable=true` (the parse error is swallowed), and
a JSON body containing `"origin"` is `usable=true`; but a body that
parses as JSON and lacks `"origin"` yields `usable=false` (with the
latency still present), in both `test_proxy` and `test_proxy_async`. -/
theorem C3_amended_body_check (proxy : String) (t : ℚ) :
    test_proxy (HttpOutcome.resp 200 JsonBody.notJson t) = (true, some t) ∧
    test_proxy (HttpOutcome.resp 200 JsonBody.withOrigin t) = (true, some t) ∧
    test_proxy (HttpOutcome.resp 200 JsonBody.noOrigin t) = (false, some t) ∧
    test_proxy_async true proxy (HttpOutcome.resp 200 JsonBody.notJson t)
      = Except.ok (true, some t) ∧
    test_proxy_async true proxy (HttpOutcome.resp 200 JsonBody.withOrigin t)
      = Except.ok (true, some t) ∧
    test_proxy_async true proxy (HttpOutcome.resp 200 JsonBody.noOrigin t)
      = Except.ok (false, some t) := by
  refine ⟨rfl, rfl, rfl, ?_, ?_, ?_⟩ <;> rw [test_proxy_async_deps] <;> rfl

/-- Witness for C3 at a concrete latency. -/
theorem C3_witness :
    test_proxy (HttpOutcome.resp 200 JsonBody.notJson 1) = (true, some 1) :=
  (C3_amended_body_check "http://a:1" 1).1

/-- C4: when no in-flight probe completes within the stall window, the
step cancels every in-flight probe (awaiting the cancellations), counts
every cancelled probe as resolved without adding anything to the
validated set, clears the in-flight state and resumes admission from the
next un-admitted cursor index; cancelled candidates are never re-admitted
later in the run; the loop still drains, and (for a positive ceiling)
every candidate ends up resolved exactly once. -/
theorem C4_stall_recovery (conc : Nat) (m : ℚ) (proxies : List String)
    (oracle : Nat → Nat → Bool) (r : Nat → Except Unit (Bool × Option ℚ))
    (s : AsyncState) (hne : s.pending_tasks ≠ [])
    (hstall : s.pending_tasks.filter (oracle s.iteration) = [])
    (hadm : ∀ i ∈ s.pending_tasks, i < s.next_proxy_index) :
    ∀ s', s' = scheduler_step conc m proxies oracle r s →
      s'.completed_count = s.completed_count + s.pending_tasks.length ∧
      s'.valid_proxies = s.valid_proxies ∧
      s'.returned_results = s.returned_results ∧
      (∀ i ∈ s'.pending_tasks, s.next_proxy_index ≤ i) ∧
      (∀ s'', async_reach conc m proxies oracle r s' s'' →
        ∀ i ∈ s''.pending_tasks, i ∉ s.pending_tasks) ∧
      (∀ fuel, run_measure proxies.length s' ≤ fuel →
        (scheduler_loop conc m proxies oracle r fuel s').pending_tasks = []) ∧
      (∀ cfg : Config, ∀ (deps : Bool) (proxies2 : List String)
        (oracle2 : Nat → Nat → Bool) (net2 : Nat → HttpOutcome),
        1 ≤ cfg.async_validator_concurrency →
        (validate_proxies_async cfg deps proxies2 oracle2 net2).completed_count
          = proxies2.length) := by
  intro s' hs'
  have hstep := scheduler_step_stall conc m proxies oracle r s hstall
  rw [hstep] at hs'
  subst hs'
  have hmem4 : ∀ i ∈ (fill_tasks conc proxies.length
      { s with
        completed_count := s.completed_count + s.pending_tasks.length
        pending_tasks := []
        iteration := s.iteration + 1 }).pending_tasks,
      s.next_proxy_index ≤ i := by
    intro i hi
    rcases fill_tasks_pending_mem conc proxies.length _ i hi with h | ⟨h1, _⟩
    · simp at h
    · exact h1
  refine ⟨?_, ?_, ?_, hmem4, ?_, ?_, ?_⟩
  · rw [fill_tasks_completed]
  · rw [fill_tasks_valid]
  · rw [fill_tasks_returned]
  · intro s'' hreach i hi hmem
    have hge := async_reach_pending_ge conc m proxies oracle r s.next_proxy_index
      _ s''
      (fill_tasks_next_ge conc proxies.length
        { s with
          completed_count := s.completed_count + s.pending_tasks.length
          pending_tasks := []
          iteration := s.iteration + 1 })
      hmem4 hreach
    have h1 := hge.1 i hi
    have h2 := hadm i hmem
    omega
  · intro fuel hfuel
    exact scheduler_loop_drains conc m proxies oracle r fuel _ hfuel
  · intro cfg deps proxies2 oracle2 net2 hconc
    exact validate_async_completed cfg deps proxies2 oracle2 net2 hconc

/-- Witness for C4: a concrete stalled state with two in-flight probes
and ceiling 2; the stall step resolves both without validating either. -/
theorem C4_witness :
    (scheduler_step 2 5 ["http://a:1", "http://b:2", "http://c:3"]
        (fun _ _ => false) (fun _ => Except.ok (true, some 1))
        (fill_tasks 2 3 init_state)).completed_count
      = (fill_tasks 2 3 init_state).completed_count
        + (fill_tasks 2 3 init_state).pending_tasks.length ∧
    (scheduler_step 2 5 ["http://a:1", "http://b:2", "http://c:3"]
        (fun _ _ => false) (fun _ => Except.ok (true, some 1))
        (fill_tasks 2 3 init_state)).valid_proxies
      = (fill_tasks 2 3 init_state).valid_proxies := by
  have h := C4_stall_recovery 2 5 ["http://a:1", "http://b:2", "http://c:3"]
    (fun _ _ => false) (fun _ => Except.ok (true, some 1))
    (fill_tasks 2 3 init_state) (by decide) (by decide) (by decide) _ rfl
  exact ⟨h.1, h.2.1⟩

/-- C5: the promised automatic fallback from async to sync validation is
unreachable.  When `aiohttp`/`aiohttp_socks` cannot be imported, every
task finishes with the `ImportError`, which `task.result()` re-raises
inside the completion loop's `except Exception: pass`, so
`validate_proxies_async` returns normally with an empty validated list
and no probe result harvested, and `validate_proxies` returns that empty
list instead of falling back to the sync validator — which, on the same
input, would have validated the candidate. -/
theorem C5_missing_deps_no_fallback :
    validate_proxies CONFIG ValidationMethod.async false ["http://a:1"]
        (fun _ _ => true) (fun _ => HttpOutcome.resp 200 JsonBody.withOrigin 1)
        (fun _ => HttpOutcome.resp 200 JsonBody.withOrigin 1) [0] = [] ∧
    (validate_proxies_sync CONFIG ["http://a:1"]
        (fun _ => HttpOutcome.resp 200 JsonBody.withOrigin 1) [0]).valid_proxies
      = ["http://a:1"] ∧
    (validate_proxies_async CONFIG false ["http://a:1"] (fun _ _ => true)
        (fun _ => HttpOutcome.resp 200 JsonBody.withOrigin 1)).completed_count = 1 ∧
    (validate_proxies_async CONFIG false ["http://a:1"] (fun _ _ => true)
        (fun _ => HttpOutcome.resp 200 JsonBody.withOrigin 1)).returned_results
      = [] := by
  refine ⟨?_, ?_, ?_, ?_⟩ <;> decide

/-- C6: in both modes the validated list is no longer than the candidate
list and every validated endpoint occurs in the candidate list. -/
theorem C6_validated_subset (cfg : Config) (deps : Bool) (proxies : List String)
    (oracle : Nat → Nat → Bool) (net sync_net : Nat → HttpOutcome)
    (order : List Nat) (horder : order.Perm (List.range proxies.length)) :
    ((validate_proxies_async cfg deps proxies oracle net).valid_proxies.length
        ≤ proxies.length ∧
      ∀ q ∈ (validate_proxies_async cfg deps proxies oracle net).valid_proxies,
        q ∈ proxies) ∧
    ((validate_proxies_sync cfg proxies sync_net order).valid_proxies.length
        ≤ proxies.length ∧
      ∀ q ∈ (validate_proxies_sync cfg proxies sync_net order).valid_proxies,
        q ∈ proxies) := by
  constructor
  · have hinv := validate_async_inv cfg deps proxies oracle net
    refine ⟨?_, hinv.valid_mem⟩
    have h1 := hinv.valid_le
    have h2 := hinv.count_eq
    have h3 := hinv.next_le
    omega
  · constructor
    · have h1 := sync_foldl_valid_le cfg.max_response_time proxies sync_net order
        { valid_proxies := [], completed := 0, returned_results := [], progress_log := [] }
      have h2 : order.length = proxies.length := by
        have h3 := horder.length_eq
        rwa [List.length_range] at h3
      simp only [List.length_nil] at h1
      rw [← h2]
      exact Nat.le_trans h1 (by omega)
    · intro q hq
      rcases sync_foldl_valid_mem cfg.max_response_time proxies sync_net order
        { valid_proxies := [], completed := 0, returned_results := [], progress_log := [] }
        q hq with h | ⟨i, hi, rfl⟩
      · simp at h
      · have h4 : i ∈ List.range proxies.length := horder.mem_iff.mp hi
        exact getD_mem proxies i (List.mem_range.mp h4)

/-- Witness for C6 at a concrete two-candidate run with a completion
order that reverses the submission order. -/
theorem C6_witness :
    ((validate_proxies_async CONFIG true ["http://a:1", "http://b:2"]
        (fun _ _ => true)
        (fun _ => HttpOutcome.resp 200 JsonBody.withOrigin 1)).valid_proxies.length
        ≤ (["http://a:1", "http://b:2"] : List String).length ∧
      ∀ q ∈ (validate_proxies_async CONFIG true ["http://a:1", "http://b:2"]
          (fun _ _ => true)
          (fun _ => HttpOutcome.resp 200 JsonBody.withOrigin 1)).valid_proxies,
        q ∈ (["http://a:1", "http://b:2"] : List String)) ∧
    ((validate_proxies_sync CONFIG ["http://a:1", "http://b:2"]
        (fun _ => HttpOutcome.resp 200 JsonBody.withOrigin 1)
        [1, 0]).valid_proxies.length
        ≤ (["http://a:1", "http://b:2"] : List String).length ∧
      ∀ q ∈ (validate_proxies_sync CONFIG ["http://a:1", "http://b:2"]
          (fun _ => HttpOutcome.resp 200 JsonBody.withOrigin 1) [1, 0]).valid_proxies,
        q ∈ (["http://a:1", "http://b:2"] : List String)) :=
  C6_validated_subset CONFIG true ["http://a:1", "http://b:2"] (fun _ _ => true)
    (fun _ => HttpOutcome.resp 200 JsonBody.withOrigin 1)
    (fun _ => HttpOutcome.resp 200 JsonBody.withOrigin 1) [1, 0] (by decide)

/-- C7: the `asyncio.wait` window is `timeout * 2`, a positive multiple
of the per-probe timeout that strictly exceeds a single probe's own
timeout whenever that timeout is positive. -/
theorem C7_stall_window_exceeds_probe_timeout (t : ℚ) (h : 0 < t) :
    stall_timeout t = 2 * t ∧ t < stall_timeout t := by
  unfold stall_timeout
  constructor
  · ring
  · have h2 : t * 2 = t + t := by ring
    rw [h2]
    linarith

/-- Witness for C7 at the configured probe timeout of 5 seconds. -/
theorem C7_witness :
    stall_timeout CONFIG.timeout = 2 * CONFIG.timeout ∧
    CONFIG.timeout < stall_timeout CONFIG.timeout :=
  C7_stall_window_exceeds_probe_timeout CONFIG.timeout (by decide)

/-- C8: every probe result with `usable=true` carries a present latency;
the latency is absent only on the `usable=false` results produced by a
raised exception (connection failure or timeout), in both probes. -/
theorem C8_usable_implies_latency (o : HttpOutcome) (proxy : String) :
    ((test_proxy o).1 = true → (test_proxy o).2.isSome = true) ∧
    ((test_proxy o).2 = none → (test_proxy o).1 = false ∧ o = HttpOutcome.exn) ∧
    (∀ v : Bool × Option ℚ, test_proxy_async true proxy o = Except.ok v →
      (v.1 = true → v.2.isSome = true) ∧
      (v.2 = none → v.1 = false ∧ o = HttpOutcome.exn)) := by
  have h1 : (test_proxy o).1 = true → (test_proxy o).2.isSome = true := by
    cases o with
    | exn =>
      intro h
      simp [test_proxy] at h
    | resp st b t =>
      intro h
      show (handle_response st b t).2.isSome = true
      rw [handle_response_latency]
      rfl
  have h2 : (test_proxy o).2 = none → (test_proxy o).1 = false ∧ o = HttpOutcome.exn := by
    cases o with
    | exn => exact fun h => ⟨rfl, rfl⟩
    | resp st b t =>
      intro h
      have h3 : (test_proxy (HttpOutcome.resp st b t)).2 = some t :=
        handle_response_latency st b t
      rw [h3] at h
      exact Option.noConfusion h
  refine ⟨h1, h2, ?_⟩
  intro v hv
  rw [test_proxy_async_deps] at hv
  injection hv with hv1
  rw [← hv1]
  exact ⟨h1, h2⟩

/-- Witness for C8 at a concrete successful probe. -/
theorem C8_witness :
    (test_proxy (HttpOutcome.resp 200 JsonBody.notJson 1)).2.isSome = true :=
  (C8_usable_implies_latency (HttpOutcome.resp 200 JsonBody.notJson 1) "http://a:1").1
    (by decide)

/-- C9 counterexample: a one-candidate async run in which the only probe
stalls resolves every candidate (`completed_count` ends at the total),
and `resolved == total` makes the reporting condition true, yet no
progress line was emitted, because the stall-recovery path increments the
resolved counter without running the progress check. -/
theorem C9_counterexample :
    should_report (["http://a:1"] : List String).length 1 = true ∧
    (validate_proxies_async CONFIG true ["http://a:1"] (fun _ _ => false)
      (fun _ => HttpOutcome.resp 200 JsonBody.withOrigin 1)).completed_count
      = (["http://a:1"] : List String).length ∧
    (validate_proxies_async CONFIG true ["http://a:1"] (fun _ _ => false)
      (fun _ => HttpOutcome.resp 200 JsonBody.withOrigin 1)).progress_log = [] := by
  refine ⟨?_, ?_, ?_⟩ <;> decide

/-- C9 amended: the reporting interval is the stated pure function of
the total; the sync validator emits a status line exactly at the
resolved counts satisfying `resolved % interval == 0 or resolved ==
total`; the async validator emits only at such counts, but skips the
check for resolved counts reached through a stall-cancellation jump; and
emission has no effect on the validated result or the resolved count. -/
theorem C9_progress_reporting (cfg : Config) (deps : Bool) (proxies : List String)
    (oracle : Nat → Nat → Bool) (net sync_net : Nat → HttpOutcome)
    (order : List Nat) (horder : order.Perm (List.range proxies.length))
    (total : Nat) (s : AsyncState) (l : List (Nat × Nat)) (fuel : Nat)
    (r : Nat → Except Unit (Bool × Option ℚ)) :
    (10000 < total → update_interval total = 500) ∧
    (1000 < total → total ≤ 10000 → update_interval total = 100) ∧
    (total ≤ 1000 → update_interval total = 50) ∧
    ((validate_proxies_sync cfg proxies sync_net order).progress_log.map Prod.fst
      = (List.range' 1 proxies.length).filter
          (fun c => should_report proxies.length c)) ∧
    (∀ e ∈ (validate_proxies_async cfg deps proxies oracle net).progress_log,
      should_report proxies.length e.1 = true) ∧
    ((scheduler_loop cfg.async_validator_concurrency cfg.max_response_time proxies
        oracle r fuel { s with progress_log := l }).valid_proxies
      = (scheduler_loop cfg.async_validator_concurrency cfg.max_response_time proxies
          oracle r fuel s).valid_proxies ∧
      (scheduler_loop cfg.async_validator_concurrency cfg.max_response_time proxies
        oracle r fuel { s with progress_log := l }).completed_count
      = (scheduler_loop cfg.async_validator_concurrency cfg.max_response_time proxies
          oracle r fuel s).completed_count) := by
  have hlen : order.length = proxies.length := by
    have h3 := horder.length_eq
    rwa [List.length_range] at h3
  refine ⟨?_, ?_, ?_, ?_, ?_, ?_⟩
  · intro h
    simp [update_interval, h]
  · intro ha hb
    have hna : ¬ total > 10000 := by omega
    simp [update_interval, hna, ha]
  · intro h
    have hna : ¬ total > 10000 := by omega
    have hnb : ¬ total > 1000 := by omega
    simp [update_interval, hna, hnb]
  · rw [show validate_proxies_sync cfg proxies sync_net order
        = order.foldl (sync_handle cfg.max_response_time proxies sync_net)
            { valid_proxies := [], completed := 0, returned_results := []
              progress_log := [] } from rfl,
      sync_foldl_log_fst]
    simp [hlen]
  · exact fun e he => (validate_async_inv cfg deps proxies oracle net).log_ok e he
  · have hc := scheduler_loop_core cfg.async_validator_concurrency
      cfg.max_response_time proxies oracle r fuel
      { s with progress_log := l } s ⟨rfl, rfl, rfl, rfl, rfl, rfl⟩
    exact ⟨hc.2.2.2.1, hc.2.1⟩

/-- Witness for C9 at a concrete one-candidate sync run. -/
theorem C9_witness :
    update_interval 5 = 50 ∧
    (validate_proxies_sync CONFIG ["http://a:1"]
        (fun _ => HttpOutcome.resp 200 JsonBody.withOrigin 1) [0]).progress_log.map
        Prod.fst
      = (List.range' 1 (["http://a:1"] : List String).length).filter
          (fun c => should_report (["http://a:1"] : List String).length c) := by
  have h := C9_progress_reporting CONFIG true ["http://a:1"] (fun _ _ => true)
    (fun _ => HttpOutcome.resp 200 JsonBody.withOrigin 1)
    (fun _ => HttpOutcome.resp 200 JsonBody.withOrigin 1) [0] (by decide) 5
    init_state [] 1 (fun _ => Except.ok (true, some 1))
  exact ⟨h.2.2.1 (by decide), h.2.2.2.1⟩

/-- C10: `load_existing_proxies` never raises and returns the list under
the `"proxies"` key when the file exists and parses as a JSON object
(the empty list when the key is absent), and the empty list when the
file is missing, unreadable, or not usable JSON. -/
theorem C10_load_existing_total (ps : List String) (f : DataFile) :
    load_existing_proxies (DataFile.object (some ps)) = ps ∧
    load_existing_proxies (DataFile.object none) = [] ∧
    load_existing_proxies DataFile.missing = [] ∧
    load_existing_proxies DataFile.unreadable = [] ∧
    load_existing_proxies DataFile.notObject = [] ∧
    (load_existing_proxies f = [] ∨
      ∃ qs, f = DataFile.object (some qs) ∧ load_existing_proxies f = qs) := by
  refine ⟨rfl, rfl, rfl, rfl, rfl, ?_⟩
  cases f with
  | missing => exact Or.inl rfl
  | unreadable => exact Or.inl rfl
  | notObject => exact Or.inl rfl
  | object o =>
    cases o with
    | none => exact Or.inl rfl
    | some qs => exact Or.inr ⟨qs, rfl, rfl⟩

/-- Witness for C10 at a concrete populated data file. -/
theorem C10_witness :
    load_existing_proxies (DataFile.object (some ["http://a:1"])) = ["http://a:1"] :=
  (C10_load_existing_total ["http://a:1"] DataFile.missing).1

end SimpleProxyCollector
